import Mathlib

/-!
Verification of the WordPress-to-Hugo migration script (`migrate.py`).

Strings are modelled as `List Char` (`Str`).  The HTML documents handled by
BeautifulSoup are modelled as rose trees (`Node`); `str(tag)` serialization,
`find`, `get_text`, `decompose` and attribute access are modelled below.
Each Python helper of the script is translated to a Lean function of the
same name (or a close variant where Lean's rules force a rename).
-/

abbrev Str := List Char

def str (s : String) : Str := s.data

/-- Python's default whitespace set for `str.strip` / `str.split()`. -/
def isPySpace (c : Char) : Bool :=
  c = ' ' || c = '\t' || c = '\n' || c = '\r' || c = '\x0b' || c = '\x0c'

/-- Boolean test that `p` is a leading segment of `s`. -/
def leadsWith : Str → Str → Bool
  | [], _ => true
  | _ :: _, [] => false
  | p :: ps, c :: cs => p = c && leadsWith ps cs

/-- Boolean test that `p` is a trailing segment of `s`. -/
def trailsWith (p s : Str) : Bool := leadsWith p.reverse s.reverse

/-- Boolean test that `p` occurs as a contiguous segment of `s`
(the semantics of Python's `in` on strings). -/
def listIsInfix (p : Str) : Str → Bool
  | [] => p.isEmpty
  | c :: cs => leadsWith p (c :: cs) || listIsInfix p cs

/-- Python `s.split(sep)` for a one-character separator (keeps empty parts). -/
def splitOnChar (sep : Char) : Str → List Str
  | [] => [[]]
  | c :: cs =>
    if c = sep then [] :: splitOnChar sep cs
    else
      match splitOnChar sep cs with
      | [] => [[c]]
      | h :: t => (c :: h) :: t

/-- Python `sep.join(parts)` for a one-character separator. -/
def joinChar (sep : Char) : List Str → Str
  | [] => []
  | [x] => x
  | x :: xs => x ++ sep :: joinChar sep xs

/-- Python `s.lstrip()`. -/
def pyLstrip : Str → Str
  | [] => []
  | c :: cs => if isPySpace c then pyLstrip cs else c :: cs

/-- Python `s.rstrip()`. -/
def pyRstrip (s : Str) : Str := (pyLstrip s.reverse).reverse

/-- Python `s.strip()`. -/
def pyStrip (s : Str) : Str := pyLstrip (pyRstrip s)

/-- Python `s.split()` (split on whitespace runs, dropping empty parts);
this is how BeautifulSoup turns a `class` attribute into a class list. -/
def splitWsAux : Str → Str → List Str
  | [], acc => if acc.isEmpty then [] else [acc.reverse]
  | c :: cs, acc =>
    if isPySpace c then
      if acc.isEmpty then splitWsAux cs [] else acc.reverse :: splitWsAux cs []
    else splitWsAux cs (c :: acc)

def splitWs (s : Str) : List Str := splitWsAux s []

/-- Python `s.replace(pat, repl)` (replace every occurrence, scanning left to
right), written with an explicit fuel so that the recursion is structural. -/
def pyReplaceFuel (pat repl : Str) : Nat → Str → Str
  | 0, s => s
  | _ + 1, [] => []
  | fuel + 1, c :: cs =>
    if pat ≠ [] ∧ leadsWith pat (c :: cs) = true then
      repl ++ pyReplaceFuel pat repl fuel ((c :: cs).drop pat.length)
    else c :: pyReplaceFuel pat repl fuel cs

def pyReplace (pat repl s : Str) : Str := pyReplaceFuel pat repl s.length s

/-- Python `s.replace('-', ' ')`. -/
def hyphenToSpace (s : Str) : Str := s.map fun c => if c = '-' then ' ' else c

/-- Python `s.title()`: a letter is uppercased when the previous character is
not a letter, lowercased otherwise. -/
def pyTitleAux : Bool → Str → Str
  | _, [] => []
  | prevAlpha, c :: cs =>
    (if c.isAlpha then (if prevAlpha then c.toLower else c.toUpper) else c) ::
      pyTitleAux c.isAlpha cs

def pyTitle (s : Str) : Str := pyTitleAux false s

/-- Python `repr` of a list of strings, as produced by `str(class_list)`
in `process_static_page` (elements single-quoted, comma-space separated). -/
def pyReprJoin : List Str → Str
  | [] => []
  | [x] => '\'' :: (x ++ ['\''])
  | x :: xs => '\'' :: (x ++ '\'' :: ',' :: ' ' :: pyReprJoin xs)

def pyReprStrList (xs : List Str) : Str := '[' :: pyReprJoin xs ++ [']']

/-! ## The DOM model -/

mutual
inductive Node where
  | elem (tag : Str) (attrs : List (Str × Str)) (children : NodeList)
  | text (s : Str)
inductive NodeList where
  | nil
  | cons (n : Node) (rest : NodeList)
end

/-- Convenience constructor for writing document forests. -/
def ofList : List Node → NodeList
  | [] => NodeList.nil
  | n :: rest => NodeList.cons n (ofList rest)

/-- First attribute value stored under key `k`. -/
def attrGet (k : Str) : List (Str × Str) → Option Str
  | [] => none
  | (n, v) :: rest => if n = k then some v else attrGet k rest

/-- BeautifulSoup's `tag.get('class', [])`: the whitespace-split class list. -/
def getClasses (attrs : List (Str × Str)) : List Str :=
  match attrGet (str "class") attrs with
  | some v => splitWs v
  | none => []

def nodeClasses (n : Node) : List Str :=
  match n with
  | Node.elem _ a _ => getClasses a
  | Node.text _ => []

def nodeAttr (k : Str) (n : Node) : Option Str :=
  match n with
  | Node.elem _ a _ => attrGet k a
  | Node.text _ => none

def isNamedElem (tg : Str) (n : Node) : Bool :=
  match n with
  | Node.elem t _ _ => t = tg
  | Node.text _ => false

def hasClass (cls : Str) (n : Node) : Bool :=
  match n with
  | Node.elem _ a _ => (getClasses a).contains cls
  | Node.text _ => false

def isEntryContentDiv (n : Node) : Bool :=
  isNamedElem (str "div") n && hasClass (str "entry-content") n

def isH1EntryTitle (n : Node) : Bool :=
  isNamedElem (str "h1") n && hasClass (str "entry-title") n

def isTimeEntryDate (n : Node) : Bool :=
  isNamedElem (str "time") n && hasClass (str "entry-date") n

def isSiteContentDiv (n : Node) : Bool :=
  isNamedElem (str "div") n && hasClass (str "site-content") n

/-- BeautifulSoup's `find`: first node in document (pre-)order satisfying `p`. -/
def findList (p : Node → Bool) : NodeList → Option Node
  | NodeList.nil => none
  | NodeList.cons (Node.text s) rest =>
    if p (Node.text s) then some (Node.text s) else findList p rest
  | NodeList.cons (Node.elem t a cs) rest =>
    if p (Node.elem t a cs) then some (Node.elem t a cs)
    else
      match findList p cs with
      | some r => some r
      | none => findList p rest

/-- BeautifulSoup's `get_text()`: concatenation of all text descendants. -/
def getTextList : NodeList → Str
  | NodeList.nil => []
  | NodeList.cons (Node.text s) rest => s ++ getTextList rest
  | NodeList.cons (Node.elem _ _ cs) rest => getTextList cs ++ getTextList rest

/-- The effect of `for elem in content_elem.find_all(['script', 'noscript']):
elem.decompose()`: every `script`/`noscript` descendant is removed with its
subtree. -/
def removeScriptsList : NodeList → NodeList
  | NodeList.nil => NodeList.nil
  | NodeList.cons (Node.text s) rest => NodeList.cons (Node.text s) (removeScriptsList rest)
  | NodeList.cons (Node.elem t a cs) rest =>
    if t = str "script" || t = str "noscript" then removeScriptsList rest
    else NodeList.cons (Node.elem t a (removeScriptsList cs)) (removeScriptsList rest)

/-- No `script`/`noscript` element anywhere in the forest. -/
def scriptFreeList : NodeList → Bool
  | NodeList.nil => true
  | NodeList.cons (Node.text _) rest => scriptFreeList rest
  | NodeList.cons (Node.elem t _ cs) rest =>
    !(t = str "script" || t = str "noscript") && scriptFreeList cs && scriptFreeList rest

/-- All members are whitespace-only text nodes. -/
def allWsTexts : NodeList → Bool
  | NodeList.nil => true
  | NodeList.cons (Node.text s) rest => s.all isPySpace && allWsTexts rest
  | NodeList.cons (Node.elem _ _ _) _ => false

/-- BeautifulSoup's minimal output formatter for text nodes. -/
def escTextChar (c : Char) : Str :=
  if c = '&' then str "&amp;"
  else if c = '<' then str "&lt;"
  else if c = '>' then str "&gt;"
  else [c]

def escText : Str → Str
  | [] => []
  | c :: cs => escTextChar c ++ escText cs

/-- BeautifulSoup's minimal output formatter for attribute values. -/
def escAttrChar (c : Char) : Str :=
  if c = '&' then str "&amp;"
  else if c = '"' then str "&quot;"
  else if c = '<' then str "&lt;"
  else if c = '>' then str "&gt;"
  else [c]

def escAttr : Str → Str
  | [] => []
  | c :: cs => escAttrChar c ++ escAttr cs

/-- Serialized attribute segment of an opening tag, in source order. -/
def attrsStr : List (Str × Str) → Str
  | [] => []
  | (n, v) :: rest => ' ' :: (n ++ '=' :: '"' :: (escAttr v ++ '"' :: attrsStr rest))

/-- `str(tag)`: serialize a forest back to HTML text. -/
def serializeList : NodeList → Str
  | NodeList.nil => []
  | NodeList.cons (Node.text s) rest => escText s ++ serializeList rest
  | NodeList.cons (Node.elem t a cs) rest =>
    '<' :: (t ++ attrsStr a ++ ['>']) ++ serializeList cs
      ++ ('<' :: '/' :: (t ++ ['>'])) ++ serializeList rest

/-- `str(tag)` on a single element. -/
def serializeNode (n : Node) : Str := serializeList (NodeList.cons n NodeList.nil)

/-- `get_text()` on a single element. -/
def getTextNode (n : Node) : Str := getTextList (NodeList.cons n NodeList.nil)

/-! ## Regular-expression models -/

/-- Split at the first `'>'`: `some (pre, post)` with `s = pre ++ '>' :: post`
and `pre` free of `'>'`. -/
def takeUntilGt : Str → Option (Str × Str)
  | [] => none
  | c :: cs =>
    if c = '>' then some ([], cs)
    else
      match takeUntilGt cs with
      | some (p, q) => some (c :: p, q)
      | none => none

/-- `re.sub(r'^<div[^>]*class="entry-content"[^>]*>', '', s)`: the pattern,
if it matches, matches exactly the prefix of `s` up to and including the
first `'>'`, and it matches precisely when `s` starts with `<div` and the
characters strictly between `<div` and that first `'>'` contain the literal
`class="entry-content"`. -/
def stripEntryContentOpen (s : Str) : Str :=
  if leadsWith (str "<div") s then
    match takeUntilGt (s.drop 4) with
    | some (pre, post) =>
      if listIsInfix (str "class=\"entry-content\"") pre then post else s
    | none => s
  else s

/-- `re.sub(r'</div>$', '', s)` for a string with no trailing newline. -/
def stripCloseDiv (s : Str) : Str :=
  if trailsWith (str "</div>") s then s.take (s.length - 6) else s

/-- `re.search(r'/(\d{4})/', path)` tried at one position. -/
def matchSlashYearAt : Str → Option Str
  | '/' :: a :: b :: c :: d :: '/' :: _ =>
    if a.isDigit && b.isDigit && c.isDigit && d.isDigit then some [a, b, c, d]
    else none
  | _ => none

/-- `re.search(r'/(\d{4})/', path)`: group 1 of the leftmost match. -/
def searchSlashYear : Str → Option Str
  | [] => none
  | c :: cs =>
    match matchSlashYearAt (c :: cs) with
    | some r => some r
    | none => searchSlashYear cs

/-- `re.search(r'/(\d{4})/(\d{2})/', path)` tried at one position. -/
def matchSlashYearMonthAt : Str → Option (Str × Str)
  | '/' :: a :: b :: c :: d :: '/' :: e :: f :: '/' :: _ =>
    if a.isDigit && b.isDigit && c.isDigit && d.isDigit && e.isDigit && f.isDigit then
      some ([a, b, c, d], [e, f])
    else none
  | _ => none

/-- `re.search(r'/(\d{4})/(\d{2})/', path)`: groups 1 and 2 of the leftmost
match. -/
def searchSlashYearMonth : Str → Option (Str × Str)
  | [] => none
  | c :: cs =>
    match matchSlashYearMonthAt (c :: cs) with
    | some r => some r
    | none => searchSlashYearMonth cs

/-- `re.match(r'\d{4}', seg)`: does `seg` start with four decimal digits? -/
def startsWith4Digits : Str → Bool
  | a :: b :: c :: d :: _ => a.isDigit && b.isDigit && c.isDigit && d.isDigit
  | _ => false

/-! ## migrate.py -/

/-- `clean_slug`: second-to-last path part, or the literal `index`. -/
def clean_slug (parts : List Str) : Str :=
  if 1 < parts.length then (parts.reverse[1]?).getD [] else str "index"

structure Metadata where
  title : Str
  date : Str
  slug : Str
  categories : Option (List Str)
  tags : Option (List Str)
  mtype : Option Str
deriving DecidableEq

/-- Two decimal digit characters as a number. -/
def twoDigits (a b : Char) : Nat := (a.toNat - '0'.toNat) * 10 + (b.toNat - '0'.toNat)

/-- Models the Python library calls `datetime.fromisoformat(s)` followed by
`strftime('%Y-%m-%dT%H:%M:%S%z')`, for the timestamp shapes occurring in a
WordPress export: `YYYY-MM-DD{T or space}HH:MM:SS`, optionally followed by an
offset `±HH:MM`.  `none` models `ValueError`.  `%z` renders the offset
without the colon, and as the empty string for a naive datetime. -/
def formatIsoDatetime (s : Str) : Option Str :=
  match s with
  | y1 :: y2 :: y3 :: y4 :: '-' :: m1 :: m2 :: '-' :: d1 :: d2 :: sep ::
      h1 :: h2 :: ':' :: n1 :: n2 :: ':' :: s1 :: s2 :: rest =>
    if ([y1, y2, y3, y4, m1, m2, d1, d2, h1, h2, n1, n2, s1, s2].all Char.isDigit)
        ∧ (sep = 'T' ∨ sep = ' ')
        ∧ 1 ≤ twoDigits m1 m2 ∧ twoDigits m1 m2 ≤ 12
        ∧ 1 ≤ twoDigits d1 d2 ∧ twoDigits d1 d2 ≤ 31
        ∧ twoDigits h1 h2 ≤ 23 ∧ twoDigits n1 n2 ≤ 59 ∧ twoDigits s1 s2 ≤ 59 then
      match rest with
      | [] =>
        some (y1 :: y2 :: y3 :: y4 :: '-' :: m1 :: m2 :: '-' :: d1 :: d2 :: 'T' ::
          h1 :: h2 :: ':' :: n1 :: n2 :: ':' :: s1 :: s2 :: [])
      | sg :: o1 :: o2 :: ':' :: o3 :: o4 :: [] =>
        if (sg = '+' ∨ sg = '-') ∧ ([o1, o2, o3, o4].all Char.isDigit)
            ∧ twoDigits o1 o2 ≤ 23 ∧ twoDigits o3 o4 ≤ 59 then
          some (y1 :: y2 :: y3 :: y4 :: '-' :: m1 :: m2 :: '-' :: d1 :: d2 :: 'T' ::
            h1 :: h2 :: ':' :: n1 :: n2 :: ':' :: s1 :: s2 :: sg :: o1 :: o2 :: o3 :: o4 :: [])
        else none
      | _ => none
    else none
  | _ => none

/-- Title extraction of `extract_post_metadata`. -/
def extractTitle (doc : NodeList) : Str :=
  match findList isH1EntryTitle doc with
  | some e => pyStrip (getTextNode e)
  | none =>
    match findList (isNamedElem (str "title")) doc with
    | some t => pyStrip (pyReplace (str " – Adam Wulf") [] (getTextNode t))
    | none => str "Untitled"

/-- Date extraction of `extract_post_metadata`.  In the path fallback the
source assigns `month = month_pattern.group(1)`, i.e. the four-digit year
capture of the month pattern, which is modelled faithfully here. -/
def extractDate (doc : NodeList) (path : Str) : Str :=
  match findList isTimeEntryDate doc with
  | some e =>
    match nodeAttr (str "datetime") e with
    | some ds =>
      if ds.isEmpty then pyStrip (getTextNode e)
      else
        match formatIsoDatetime (pyReplace (str "Z") (str "+00:00") ds) with
        | some out => out
        | none => pyStrip (getTextNode e)
    | none => pyStrip (getTextNode e)
  | none =>
    match searchSlashYear path, searchSlashYearMonth path with
    | some y, some (my, _mm) => y ++ '-' :: (my ++ str "-01T00:00:00+00:00")
    | _, _ => str "2008-01-01T00:00:00+00:00"

/-- `cls.replace('category-', '').replace('-', ' ').title()`. -/
def categoryName (cls : Str) : Str :=
  pyTitle (hyphenToSpace (pyReplace (str "category-") [] cls))

/-- `cls.replace('tag-', '').replace('-', ' ').title()`. -/
def tagName (cls : Str) : Str :=
  pyTitle (hyphenToSpace (pyReplace (str "tag-") [] cls))

def isCategoryClass (cls : Str) : Bool :=
  leadsWith (str "category-") cls && !(cls = str "category-uncategorized")

def isTagClass (cls : Str) : Bool := leadsWith (str "tag-") cls

/-- The category/tag loop of `extract_post_metadata`, preserving class order. -/
def extractCatsTags : List Str → List Str × List Str
  | [] => ([], [])
  | cls :: rest =>
    let r := extractCatsTags rest
    if isCategoryClass cls then (categoryName cls :: r.1, r.2)
    else if isTagClass cls then (r.1, tagName cls :: r.2)
    else r

/-- `extract_post_metadata`. -/
def extract_post_metadata (doc : NodeList) (path : Str) : Metadata :=
  let ct :=
    match findList (isNamedElem (str "article")) doc with
    | some (Node.elem _ a _) => extractCatsTags (getClasses a)
    | _ => ([], [])
  { title := extractTitle doc
    date := extractDate doc path
    slug := clean_slug (splitOnChar '/' path)
    categories := if ct.1.isEmpty then none else some ct.1
    tags := if ct.2.isEmpty then none else some ct.2
    mtype := none }

/-- `extract_post_content`. -/
def extract_post_content (doc : NodeList) : Str :=
  match findList isEntryContentDiv doc with
  | some (Node.elem t a cs) =>
    let s := serializeNode (Node.elem t a (removeScriptsList cs))
    pyStrip (stripCloseDiv (pyRstrip (stripEntryContentOpen s)))
  | _ => []

/-- `title.replace('"', '\\"')` in `create_hugo_content_file`. -/
def escapeQuote : Str → Str
  | [] => []
  | c :: cs => if c = '"' then '\\' :: '"' :: escapeQuote cs else c :: escapeQuote cs

/-- `', '.join(f'"{x}"' for x in xs)`. -/
def quoteJoin : List Str → Str
  | [] => []
  | [x] => '"' :: (x ++ ['"'])
  | x :: xs => '"' :: (x ++ '"' :: ',' :: ' ' :: quoteJoin xs)

/-- The front-matter lines assembled by `create_hugo_content_file`.  Note
that the source appends the literal `type = "post"` unconditionally and never
reads `metadata['type']`. -/
def frontMatterLines (m : Metadata) : List Str :=
  [str "+++",
   str "title = \"" ++ escapeQuote m.title ++ ['"'],
   str "date = \"" ++ m.date ++ ['"'],
   str "slug = \"" ++ m.slug ++ ['"']]
  ++ (match m.categories with
      | some cs => [str "categories = [" ++ quoteJoin cs ++ [']']]
      | none => [])
  ++ (match m.tags with
      | some ts => [str "tags = [" ++ quoteJoin ts ++ [']']]
      | none => [])
  ++ [str "type = \"post\"", str "+++"]

/-- `create_hugo_content_file`: the text written to the output file. -/
def create_hugo_content_file (m : Metadata) (content : Str) : Str :=
  joinChar '\n' (frontMatterLines m) ++ str "\n\n" ++ content

inductive PostResult where
  | notPost
  | emptyContent
  | written (outPath : List Str) (file : Str)
deriving DecidableEq

/-- `process_blog_post`: `notPost` models the silent structural skip,
`emptyContent` the warned empty-content skip, `written` a created file with
its path segments below the Hugo content directory. -/
def process_blog_post (doc : NodeList) (path : Str) : PostResult :=
  match findList (isNamedElem (str "article")) doc, findList isEntryContentDiv doc with
  | some _, some _ =>
    let m := extract_post_metadata doc path
    let content := extract_post_content doc
    if pyStrip content = [] then PostResult.emptyContent
    else
      let outPath :=
        match searchSlashYear path, searchSlashYearMonth path with
        | some y, some (my, _mm) => [str "posts", y, my, m.slug ++ str ".html"]
        | _, _ => [str "posts", m.slug ++ str ".html"]
      PostResult.written outPath (create_hugo_content_file m content)
  | _, _ => PostResult.notPost

inductive PageResult where
  | noContent
  | notNamedPage
  | written (name : Str) (file : Str)
deriving DecidableEq

/-- The nested lookup of `process_static_page` inside the `site-content`
container: `content_elem.find('div', class_='entry-content') or
content_elem.find('main')` (a `find` searches descendants only). -/
def innerContentOf (n : Node) : Option Node :=
  match n with
  | Node.elem _ _ cs =>
    (match findList isEntryContentDiv cs with
     | some i => some i
     | none => findList (isNamedElem (str "main")) cs)
  | Node.text _ => none

/-- `process_static_page`. -/
def process_static_page (doc : NodeList) (path : Str) : PageResult :=
  match
    (match findList isEntryContentDiv doc with
     | some e => some e
     | none =>
       match findList (isNamedElem (str "main")) doc with
       | some e => some e
       | none => findList isSiteContentDiv doc) with
  | none => PageResult.noContent
  | some ce =>
    let m := extract_post_metadata doc path
    let c0 := extract_post_content doc
    let content0 := if c0 = [] then serializeNode ce else c0
    let content :=
      if listIsInfix (str "site-content") (pyReprStrList (nodeClasses ce)) then
        match innerContentOf ce with
        | some inner => serializeNode inner
        | none => content0
      else content0
    let pageName := ((splitOnChar '/' path).reverse[1]?).getD []
    if pageName = str "about" ∨ pageName = str "projects" ∨ pageName = str "open-source" then
      PageResult.written pageName
        (create_hugo_content_file { m with mtype := some (str "page") } content)
    else PageResult.notNamedPage

/-- The post-candidate filter of `main` (lines 240-245): a glob result is
processed when its textual path ends in `/index.html`, splits into at least
four `/`-separated parts, and `re.match(r'\d{4}', ...)` succeeds on the
fourth-from-last part. -/
def candidateIndexFile (path : Str) : Bool :=
  trailsWith (str "/index.html") path &&
    (let parts := splitOnChar '/' path
     decide (4 ≤ parts.length) &&
       (match parts.reverse[3]? with
        | some y => startsWith4Digits y
        | none => false))

/-- The blog-post loop of `main`: returns the post counter and the written
files (as pairs of output path segments and file text). -/
def runPosts : List (NodeList × Str) → Nat × List (List Str × Str)
  | [] => (0, [])
  | (doc, path) :: rest =>
    let r := runPosts rest
    if candidateIndexFile path then
      match process_blog_post doc path with
      | PostResult.written o f => (r.1 + 1, (o, f) :: r.2)
      | _ => r
    else r

/-! ## Definitions following the spec's words (for refinement comparisons) -/

/-- Follows the claim's words for C5: paths matching
`.../<digits>/<digits>/<segment>/index.html` where the fourth-from-last
segment is a four-digit numeral. -/
def specPostCandidate (path : Str) : Bool :=
  match (splitOnChar '/' path).reverse with
  | last :: _seg :: mo :: yr :: _ =>
    last = str "index.html" && decide (yr.length = 4) && yr.all Char.isDigit &&
      !mo.isEmpty && mo.all Char.isDigit
  | _ => false

/-- Follows the claim's words for C6: strip the `category-` prefix (once),
replace hyphens with spaces, title-case each word. -/
def specCategoryName (cls : Str) : Str := pyTitle (hyphenToSpace (cls.drop 9))

/-- Follows the claim's words for C7: the document title text with the
site-name suffix `" – Adam Wulf"` stripped (when it is a suffix), then
trimmed. -/
def specTitleFallback (t : Str) : Str :=
  pyStrip
    (if trailsWith (str " – Adam Wulf") t then
      t.take (t.length - (str " – Adam Wulf").length)
    else t)

/-- Modelled from the spec (§4.5/§6, the output-file format): read one
front-matter assignment line `key = "<value>"`, returning the raw quoted
contents.  The repository has no reader; this parser realizes the spec's
"writing then re-reading" round trip. -/
def parseQuoted (key line : Str) : Option Str :=
  let pre := key ++ str " = \""
  if leadsWith pre line = true ∧ pre.length < line.length ∧ line.getLast? = some '"' then
    some ((line.drop pre.length).dropLast)
  else none

/-- Modelled from the spec: undo the writer's quote escaping, scanning left
to right and turning each `\"` back into `"`.  The boolean state records a
pending, not yet emitted backslash. -/
def unescQ : Bool → Str → Str
  | false, [] => []
  | true, [] => ['\\']
  | false, c :: cs => if c = '\\' then unescQ true cs else c :: unescQ false cs
  | true, c :: cs =>
    if c = '"' then '"' :: unescQ false cs
    else if c = '\\' then '\\' :: unescQ true cs
    else '\\' :: c :: unescQ false cs

def unescapeQuote (s : Str) : Str := unescQ false s

/-- Modelled from the spec: parse the front matter of a generated output file
back, recovering the `title`, `date` and `slug` values from its fixed first
four lines. -/
def parseFrontMatterBack (file : Str) : Option (Str × Str × Str) :=
  match splitOnChar '\n' file with
  | l0 :: l1 :: l2 :: l3 :: _ =>
    if l0 = str "+++" then
      match parseQuoted (str "title") l1, parseQuoted (str "date") l2,
          parseQuoted (str "slug") l3 with
      | some t, some d, some s => some (unescapeQuote t, d, s)
      | _, _, _ => none
    else none
  | _ => none

/-! ## Helper lemmas -/

theorem leadsWith_append (p r : Str) : leadsWith p (p ++ r) = true := by
  induction p with
  | nil => rfl
  | cons c cs ih => simp [leadsWith, ih]

theorem trailsWith_append (p a : Str) : trailsWith p (a ++ p) = true := by
  unfold trailsWith
  rw [List.reverse_append]
  exact leadsWith_append _ _

theorem listIsInfix_of_parts (pat x y : Str) : listIsInfix pat (x ++ pat ++ y) = true := by
  induction x with
  | nil =>
    rw [List.nil_append]
    cases hp : pat ++ y with
    | nil =>
      rcases List.append_eq_nil.mp hp with ⟨h1, _⟩
      simp [listIsInfix, h1]
    | cons c cs =>
      rw [show listIsInfix pat (c :: cs) = (leadsWith pat (c :: cs) || listIsInfix pat cs) from rfl,
        ← hp, leadsWith_append, Bool.true_or]
  | cons c cs ih =>
    rw [List.cons_append, List.cons_append,
      show listIsInfix pat (c :: (cs ++ pat ++ y)) =
        (leadsWith pat (c :: (cs ++ pat ++ y)) || listIsInfix pat (cs ++ pat ++ y)) from rfl,
      ih, Bool.or_true]

theorem takeUntilGt_append (pre post : Str) (h : '>' ∉ pre) :
    takeUntilGt (pre ++ '>' :: post) = some (pre, post) := by
  induction pre with
  | nil => simp [takeUntilGt]
  | cons c cs ih =>
    simp only [List.mem_cons, not_or] at h
    have hc : ¬c = '>' := fun hh => h.1 hh.symm
    simp [takeUntilGt, hc, ih h.2]

theorem splitOnChar_part (sep : Char) (p r : Str) (h : sep ∉ p) :
    splitOnChar sep (p ++ sep :: r) = p :: splitOnChar sep r := by
  induction p with
  | nil => simp [splitOnChar]
  | cons c cs ih =>
    simp only [List.mem_cons, not_or] at h
    have hc : ¬c = sep := fun hh => h.1 hh.symm
    simp [splitOnChar, hc, ih h.2]

theorem joinChar_cons (sep : Char) (x : Str) (xs : List Str) (h : xs ≠ []) :
    joinChar sep (x :: xs) = x ++ sep :: joinChar sep xs := by
  cases xs with
  | nil => exact absurd rfl h
  | cons y ys => rfl

theorem joinChar_concat (sep : Char) (l : List Str) (x : Str) (h : l ≠ []) :
    joinChar sep (l ++ [x]) = joinChar sep l ++ sep :: x := by
  induction l with
  | nil => exact absurd rfl h
  | cons y ys ih =>
    cases ys with
    | nil => rfl
    | cons z zs =>
      rw [List.cons_append, joinChar_cons sep y ((z :: zs) ++ [x]) (by simp),
        joinChar_cons sep y (z :: zs) (by simp), ih (by simp)]
      simp

theorem splitOnChar_joinChar (sep : Char) (parts : List Str) (hne : parts ≠ [])
    (h : ∀ p ∈ parts, sep ∉ p) : splitOnChar sep (joinChar sep parts) = parts := by
  induction parts with
  | nil => exact absurd rfl hne
  | cons x xs ih =>
    cases xs with
    | nil =>
      simp only [joinChar]
      have hx := h x (by simp)
      clear h ih hne
      induction x with
      | nil => rfl
      | cons c cs ihx =>
        simp only [List.mem_cons, not_or] at hx
        have hc : ¬c = sep := fun hh => hx.1 hh.symm
        simp [splitOnChar, hc, ihx hx.2]
    | cons y ys =>
      rw [joinChar_cons sep x (y :: ys) (by simp),
        splitOnChar_part sep x _ (h x (by simp)), ih (by simp)]
      intro p hp
      exact h p (by simp [hp])

theorem pyLstrip_spaces (l : Str) (h : ∀ c ∈ l, isPySpace c = true) : pyLstrip l = [] := by
  induction l with
  | nil => rfl
  | cons c cs ih =>
    simp only [pyLstrip, h c (by simp)]
    exact ih fun d hd => h d (by simp [hd])

theorem pyStrip_spaces (l : Str) (h : ∀ c ∈ l, isPySpace c = true) : pyStrip l = [] := by
  unfold pyStrip pyRstrip
  rw [pyLstrip_spaces l.reverse (by simpa using fun c hc => h c hc)]
  rfl

theorem pyRstrip_concat_nonspace (l : Str) (c : Char) (h : isPySpace c = false) :
    pyRstrip (l ++ [c]) = l ++ [c] := by
  unfold pyRstrip
  rw [List.reverse_append]
  simp [pyLstrip, h]

theorem escapeQuote_nl_free (s : Str) (h : '\n' ∉ s) : '\n' ∉ escapeQuote s := by
  induction s with
  | nil => simp [escapeQuote]
  | cons c cs ih =>
    simp only [List.mem_cons, not_or] at h
    by_cases hc : c = '"'
    · simp [escapeQuote, hc, ih h.2]
    · simp [escapeQuote, hc, ih h.2, h.1]

theorem escapeQuote_head_ne (s t : Str) : escapeQuote s ≠ '"' :: t := by
  cases s with
  | nil => simp [escapeQuote]
  | cons c cs =>
    by_cases hc : c = '"'
    · simp [escapeQuote, hc]
    · simp [escapeQuote, hc]

theorem unescQ_escape (s : Str) :
    unescQ false (escapeQuote s) = s ∧ unescQ true (escapeQuote s) = '\\' :: s := by
  induction s with
  | nil => exact ⟨rfl, rfl⟩
  | cons c cs ih =>
    by_cases hc : c = '"'
    · subst hc
      simp [escapeQuote, unescQ, ih.1]
    · by_cases hb : c = '\\'
      · subst hb
        simp [escapeQuote, unescQ, ih.2]
      · simp [escapeQuote, unescQ, hc, hb, ih.1]

theorem unescape_escape (s : Str) : unescapeQuote (escapeQuote s) = s :=
  (unescQ_escape s).1

theorem findList_some {p : Node → Bool} {l : NodeList} {n : Node}
    (h : findList p l = some n) : p n = true := by
  induction l using findList.induct p with
  | case1 => simp [findList] at h
  | case2 s rest hp =>
    rw [findList, if_pos hp] at h
    cases h
    exact hp
  | case3 s rest hp ih =>
    rw [findList, if_neg hp] at h
    exact ih h
  | case4 t a cs rest hp =>
    rw [findList, if_pos hp] at h
    cases h
    exact hp
  | case5 t a cs rest hp r hr ihc =>
    rw [findList, if_neg hp, hr] at h
    cases h
    exact ihc hr
  | case6 t a cs rest hp hr ihc ih =>
    rw [findList, if_neg hp, hr] at h
    exact ih h

theorem scriptFree_removeScripts (ns : NodeList) :
    scriptFreeList (removeScriptsList ns) = true := by
  induction ns using removeScriptsList.induct with
  | case1 => simp [removeScriptsList, scriptFreeList]
  | case2 s rest ih => simp [removeScriptsList, scriptFreeList, ih]
  | case3 t a cs rest hscript ih => simp [removeScriptsList, hscript, ih]
  | case4 t a cs rest hscript ihc ih =>
    rw [removeScriptsList, if_neg hscript]
    rw [Bool.or_eq_true, decide_eq_true_eq, decide_eq_true_eq] at hscript
    push_neg at hscript
    simp [scriptFreeList, ihc, ih, hscript.1, hscript.2]

theorem removeScripts_texts (ns : NodeList) (h : allWsTexts ns = true) :
    removeScriptsList ns = ns := by
  induction ns using allWsTexts.induct with
  | case1 => rfl
  | case2 s rest ih =>
    rw [allWsTexts, Bool.and_eq_true] at h
    rw [removeScriptsList, ih h.2]
  | case3 => simp [allWsTexts] at h

theorem escText_spaces (s : Str) (h : ∀ c ∈ s, isPySpace c = true) : escText s = s := by
  induction s with
  | nil => rfl
  | cons c cs ih =>
    have hc := h c (by simp)
    have hamp : ¬c = '&' := by
      intro hh
      subst hh
      exact absurd hc (by decide)
    have hlt : ¬c = '<' := by
      intro hh
      subst hh
      exact absurd hc (by decide)
    have hgt : ¬c = '>' := by
      intro hh
      subst hh
      exact absurd hc (by decide)
    rw [escText, show escTextChar c = [c] by simp [escTextChar, hamp, hlt, hgt],
      ih fun d hd => h d (by simp [hd])]
    rfl

theorem serialize_text_spaces (ns : NodeList) (h : allWsTexts ns = true) :
    ∀ c ∈ serializeList ns, isPySpace c = true := by
  induction ns using allWsTexts.induct with
  | case1 => simp [serializeList]
  | case2 s rest ih =>
    rw [allWsTexts, Bool.and_eq_true] at h
    have hsp : ∀ c ∈ s, isPySpace c = true := by
      intro c hc
      exact List.all_eq_true.mp h.1 c hc
    rw [serializeList, escText_spaces s hsp]
    intro c hc
    rcases List.mem_append.mp hc with hc1 | hc1
    · exact hsp c hc1
    · exact ih h.2 c hc1
  | case3 => simp [allWsTexts] at h

theorem escAttr_gt_free (v : Str) : '>' ∉ escAttr v := by
  induction v with
  | nil => simp [escAttr]
  | cons c cs ih =>
    rw [escAttr]
    intro hmem
    rcases List.mem_append.mp hmem with h1 | h1
    · unfold escAttrChar at h1
      split at h1
      · simp [str] at h1
      · split at h1
        · simp [str] at h1
        · split at h1
          · simp [str] at h1
          · split at h1
            · simp [str] at h1
            · rename_i h2 h3 h4 h5
              simp at h1
              exact h5 h1.symm
    · exact ih h1

theorem attrsStr_append (x y : List (Str × Str)) :
    attrsStr (x ++ y) = attrsStr x ++ attrsStr y := by
  induction x with
  | nil => rfl
  | cons p rest ih =>
    cases p with
    | mk n v => simp [attrsStr, ih]

theorem attrsStr_gt_free (a : List (Str × Str)) (h : ∀ p ∈ a, '>' ∉ p.1) :
    '>' ∉ attrsStr a := by
  induction a with
  | nil => simp [attrsStr]
  | cons p rest ih =>
    cases p with
    | mk n v =>
      rw [attrsStr]
      intro hmem
      rcases List.mem_cons.mp hmem with h1 | h1
      · exact absurd h1.symm (by decide)
      rcases List.mem_append.mp h1 with h2 | h2
      · exact h (n, v) (by simp) h2
      rcases List.mem_cons.mp h2 with h3 | h3
      · exact absurd h3.symm (by decide)
      rcases List.mem_cons.mp h3 with h4 | h4
      · exact absurd h4.symm (by decide)
      rcases List.mem_append.mp h4 with h5 | h5
      · exact escAttr_gt_free v h5
      rcases List.mem_cons.mp h5 with h6 | h6
      · exact absurd h6.symm (by decide)
      · exact ih (fun q hq => h q (by simp [hq])) h6

theorem attrGet_split {k v : Str} {a : List (Str × Str)} (h : attrGet k a = some v) :
    ∃ a1 a2, a = a1 ++ (k, v) :: a2 := by
  induction a with
  | nil => simp [attrGet] at h
  | cons p rest ih =>
    cases p with
    | mk n w =>
      by_cases hn : n = k
      · rw [attrGet, if_pos hn] at h
        cases h
        exact ⟨[], rest, by simp [hn]⟩
      · rw [attrGet, if_neg hn] at h
        rcases ih h with ⟨a1, a2, ha⟩
        exact ⟨(n, w) :: a1, a2, by simp [ha]⟩

theorem strip_wrapper (a : List (Str × Str)) (ns : NodeList)
    (hcls : attrGet (str "class") a = some (str "entry-content"))
    (hnames : ∀ p ∈ a, '>' ∉ p.1) :
    stripCloseDiv (pyRstrip (stripEntryContentOpen (serializeNode (Node.elem (str "div") a ns))))
      = serializeList ns := by
  have hser : serializeNode (Node.elem (str "div") a ns)
      = str "<div" ++ (attrsStr a ++ '>' :: (serializeList ns ++ str "</div>")) := by
    simp [serializeNode, serializeList, str]
  have hoccur : listIsInfix (str "class=\"entry-content\"") (attrsStr a) = true := by
    rcases attrGet_split hcls with ⟨a1, a2, ha⟩
    subst ha
    rw [attrsStr_append]
    have heq : attrsStr ((str "class", str "entry-content") :: a2)
        = [' '] ++ str "class=\"entry-content\"" ++ attrsStr a2 := by
      rw [attrsStr, show escAttr (str "entry-content") = str "entry-content" by decide]
      simp [str]
    rw [heq, ← List.append_assoc, ← List.append_assoc]
    exact listIsInfix_of_parts _ _ _
  have hopen : stripEntryContentOpen (serializeNode (Node.elem (str "div") a ns))
      = serializeList ns ++ str "</div>" := by
    rw [hser, stripEntryContentOpen, if_pos (leadsWith_append (str "<div") _),
      show (4 : Nat) = (str "<div").length from rfl, List.drop_left,
      takeUntilGt_append _ _ (attrsStr_gt_free a hnames)]
    simp [hoccur]
  rw [hopen]
  have hr : pyRstrip (serializeList ns ++ str "</div>") = serializeList ns ++ str "</div>" := by
    have : serializeList ns ++ str "</div>" = (serializeList ns ++ str "</div") ++ ['>'] := by
      simp [str]
    rw [this, pyRstrip_concat_nonspace _ '>' (by decide), ← this]
  rw [hr, stripCloseDiv, if_pos (trailsWith_append (str "</div>") (serializeList ns))]
  rw [List.length_append, show (str "</div>").length = 6 from rfl, Nat.add_sub_cancel]
  exact List.take_left _ _

theorem extract_content_of_found {doc : NodeList} {t : Str} {a : List (Str × Str)}
    {cs : NodeList}
    (hfind : findList isEntryContentDiv doc = some (Node.elem t a cs))
    (hcls : attrGet (str "class") a = some (str "entry-content"))
    (hnames : ∀ p ∈ a, '>' ∉ p.1) :
    extract_post_content doc = pyStrip (serializeList (removeScriptsList cs)) := by
  have ht : t = str "div" := by
    have hp := findList_some hfind
    simp only [isEntryContentDiv, isNamedElem, Bool.and_eq_true, decide_eq_true_eq] at hp
    exact hp.1
  subst ht
  rw [extract_post_content]
  simp only [hfind]
  rw [strip_wrapper a (removeScriptsList cs) hcls hnames]

theorem parseQuoted_value (key v : Str) :
    parseQuoted key ((key ++ str " = \"") ++ v ++ ['"']) = some v := by
  rw [parseQuoted]
  have hlead : leadsWith (key ++ str " = \"") (((key ++ str " = \"") ++ v) ++ ['"']) = true := by
    rw [List.append_assoc]
    exact leadsWith_append _ _
  have hlen : (key ++ str " = \"").length < (((key ++ str " = \"") ++ v) ++ ['"']).length := by
    simp
  have hlast : (((key ++ str " = \"") ++ v) ++ ['"']).getLast? = some '"' :=
    List.getLast?_concat _
  rw [if_pos ⟨hlead, hlen, hlast⟩]
  rw [List.append_assoc, List.drop_left, List.dropLast_concat]

theorem isCategoryClass_not_tag (cls : Str) (h : isCategoryClass cls = true) :
    isTagClass cls = false := by
  rw [isCategoryClass, Bool.and_eq_true] at h
  have h1 := h.1
  cases cls with
  | nil => simp [str, leadsWith] at h1
  | cons c rest =>
    rw [show str "category-" = 'c' :: str "ategory-" from by decide, leadsWith,
      Bool.and_eq_true, decide_eq_true_eq] at h1
    rw [isTagClass, show str "tag-" = 't' :: str "ag-" from by decide, leadsWith, ← h1.1]
    simp

theorem extractCatsTags_eq (classes : List Str) :
    extractCatsTags classes
      = ((classes.filter isCategoryClass).map categoryName,
         (classes.filter isTagClass).map tagName) := by
  induction classes with
  | nil => rfl
  | cons cls rest ih =>
    cases hcat : isCategoryClass cls
    · cases htag : isTagClass cls
      · simp [extractCatsTags, ih, List.filter_cons, hcat, htag]
      · simp [extractCatsTags, ih, List.filter_cons, hcat, htag]
    · simp [extractCatsTags, ih, List.filter_cons, hcat, isCategoryClass_not_tag cls hcat]

theorem isEmpty_map_eq {α β : Type} (f : α → β) (l : List α) :
    (l.map f).isEmpty = l.isEmpty := by
  cases l <;> rfl

theorem splitOnChar_part2 (sep : Char) (p X T : Str) (h : sep ∉ p) :
    splitOnChar sep ((p ++ sep :: X) ++ T) = p :: splitOnChar sep (X ++ T) := by
  rw [List.append_assoc, List.cons_append]
  exact splitOnChar_part sep p (X ++ T) h

/-! ## Claims -/

/-- C1: the claim says that, with no `time.entry-date` element, a path
containing `/2012/03/` yields the date `2012-03-01T00:00:00+00:00`.  The code
assigns `month = month_pattern.group(1)` — the year capture of the month
pattern — so it produces `2012-2012-01T00:00:00+00:00` even though the month
capture `"03"` (group 2) is available; the no-pattern default
`2008-01-01T00:00:00+00:00` does hold.  This theorem evaluates the embedded
code at the failing input. -/
theorem c1_path_date_month_bug :
    extractDate NodeList.nil (str "export/2012/03/my-post/index.html")
        = str "2012-2012-01T00:00:00+00:00"
      ∧ searchSlashYearMonth (str "export/2012/03/my-post/index.html")
        = some (str "2012", str "03")
      ∧ extractDate NodeList.nil (str "export/nodate/post/index.html")
        = str "2008-01-01T00:00:00+00:00"
      ∧ str "2012-2012-01T00:00:00+00:00" ≠ str "2012-03-01T00:00:00+00:00" := by
  decide

/-- C2: the claim says static pages are written with `type = "page"`.
`process_static_page` does set `metadata['type'] = 'page'`, but
`create_hugo_content_file` never reads it and appends the literal
`type = "post"` to every file: every front matter contains the
`type = "post"` line and never a `type = "page"` line, and the end-to-end
about-page scenario produces a file saying `type = "post"`. -/
theorem c2_static_page_type_bug :
    (∀ m : Metadata, str "type = \"post\"" ∈ frontMatterLines m
        ∧ str "type = \"page\"" ∉ frontMatterLines m)
    ∧ process_static_page
        (ofList [Node.elem (str "div") [(str "class", str "entry-content")]
          (ofList [Node.text (str "About me")])])
        (str "export/about/index.html")
      = PageResult.written (str "about")
          (str "+++\ntitle = \"Untitled\"\ndate = \"2008-01-01T00:00:00+00:00\"\nslug = \"about\"\ntype = \"post\"\n+++\n\nAbout me")
    ∧ listIsInfix (str "type = \"post\"")
        (str "+++\ntitle = \"Untitled\"\ndate = \"2008-01-01T00:00:00+00:00\"\nslug = \"about\"\ntype = \"post\"\n+++\n\nAbout me") = true
    ∧ listIsInfix (str "type = \"page\"")
        (str "+++\ntitle = \"Untitled\"\ndate = \"2008-01-01T00:00:00+00:00\"\nslug = \"about\"\ntype = \"post\"\n+++\n\nAbout me") = false := by
  refine ⟨?_, by decide, by decide, by decide⟩
  intro m
  rcases m with ⟨ti, da, sl, cats, tags, ty⟩
  constructor
  · cases cats <;> cases tags <;> simp [frontMatterLines]
  · cases cats <;> cases tags <;> simp [frontMatterLines, str]

/-- C3 counterexample: a static page whose content container is the `main`
fallback is written with the `<main>` wrapper tag and its `<script>` element
intact, contradicting the claimed invariant for the fallback paths. -/
theorem c3_counterexample :
    process_static_page
        (ofList [Node.elem (str "main") []
          (ofList [Node.elem (str "script") [] (ofList [Node.text (str "x")]),
                   Node.text (str "hi")])])
        (str "export/about/index.html")
      = PageResult.written (str "about")
          (str "+++\ntitle = \"Untitled\"\ndate = \"2008-01-01T00:00:00+00:00\"\nslug = \"about\"\ntype = \"post\"\n+++\n\n<main><script>x</script>hi</main>")
    ∧ listIsInfix (str "<script>")
        (str "+++\ntitle = \"Untitled\"\ndate = \"2008-01-01T00:00:00+00:00\"\nslug = \"about\"\ntype = \"post\"\n+++\n\n<main><script>x</script>hi</main>") = true
    ∧ listIsInfix (str "<main>")
        (str "+++\ntitle = \"Untitled\"\ndate = \"2008-01-01T00:00:00+00:00\"\nslug = \"about\"\ntype = \"post\"\n+++\n\n<main><script>x</script>hi</main>") = true := by
  decide

/-- C3 amended: on the `entry-content` extraction path (the only sanitizing
path), when the found div's class attribute is exactly `entry-content` and
its attribute names contain no `>`, the ContentBody is the trimmed inner
serialization of the pruned child forest, and that forest contains no
`script`/`noscript` element; the `main`/`site-content` fallback paths of
static pages serialize the container verbatim and are exempt. -/
theorem c3_amended (doc : NodeList) (t : Str) (a : List (Str × Str)) (cs : NodeList)
    (hfind : findList isEntryContentDiv doc = some (Node.elem t a cs))
    (hcls : attrGet (str "class") a = some (str "entry-content"))
    (hnames : ∀ p ∈ a, '>' ∉ p.1) :
    extract_post_content doc = pyStrip (serializeList (removeScriptsList cs))
      ∧ scriptFreeList (removeScriptsList cs) = true :=
  ⟨extract_content_of_found hfind hcls hnames, scriptFree_removeScripts cs⟩

/-- C3 witness: the amended theorem applied to a concrete post document
whose entry-content holds a script element. -/
theorem c3_amended_witness :
    extract_post_content (ofList [Node.elem (str "article") []
        (ofList [Node.elem (str "div") [(str "class", str "entry-content")]
          (ofList [Node.text (str "Hello "),
                   Node.elem (str "script") [] (ofList [Node.text (str "bad()")])])])])
      = pyStrip (serializeList (removeScriptsList
          (ofList [Node.text (str "Hello "),
                   Node.elem (str "script") [] (ofList [Node.text (str "bad()")])])))
    ∧ scriptFreeList (removeScriptsList
        (ofList [Node.text (str "Hello "),
                 Node.elem (str "script") [] (ofList [Node.text (str "bad()")])])) = true := by
  exact c3_amended _ _ _ _ (by rfl) (by rfl) (by decide)

/-- C4 counterexample: for a div whose class attribute carries an extra
class (`entry-content extra`), the opening-tag regex `<div[^>]*
class="entry-content"[^>]*>` does not match the serialized tag, so the outer
wrapping tag is NOT stripped (while the trailing `</div>` still is),
refuting the claimed tolerance of arbitrary class content. -/
theorem c4_counterexample :
    extract_post_content (ofList [Node.elem (str "div")
        [(str "class", str "entry-content extra")] (ofList [Node.text (str "hi")])])
      = str "<div class=\"entry-content extra\">hi"
    ∧ str "<div class=\"entry-content extra\">hi" ≠ str "hi" := by
  decide

/-- C4 amended: when the div's class attribute is exactly `entry-content`
and the attribute names contain no `>`, extraction strips exactly the outer
wrapping tag and the final `</div>` and trims, for any other attributes in
any order. -/
theorem c4_amended (a : List (Str × Str)) (cs : NodeList)
    (hcls : attrGet (str "class") a = some (str "entry-content"))
    (hnames : ∀ p ∈ a, '>' ∉ p.1) :
    extract_post_content (ofList [Node.elem (str "div") a cs])
      = pyStrip (serializeList (removeScriptsList cs)) := by
  have hpred : isEntryContentDiv (Node.elem (str "div") a cs) = true := by
    rw [isEntryContentDiv, Bool.and_eq_true]
    refine ⟨by simp [isNamedElem], ?_⟩
    rw [hasClass, getClasses, hcls]
    decide
  have hfind : findList isEntryContentDiv (ofList [Node.elem (str "div") a cs])
      = some (Node.elem (str "div") a cs) := by
    rw [ofList, ofList, findList, if_pos hpred]
  exact extract_content_of_found hfind hcls hnames

/-- C4 witness: the amended theorem applied to a div with another attribute
placed before the class attribute. -/
theorem c4_amended_witness :
    extract_post_content (ofList [Node.elem (str "div")
        [(str "id", str "x"), (str "class", str "entry-content")]
        (ofList [Node.text (str " hi "),
                 Node.elem (str "script") [] (ofList [Node.text (str "bad()")])])])
      = pyStrip (serializeList (removeScriptsList
          (ofList [Node.text (str " hi "),
                   Node.elem (str "script") [] (ofList [Node.text (str "bad()")])]))) := by
  exact c4_amended _ _ (by rfl) (by decide)

/-- C5 counterexample: the scanner accepts `wp/2012/march/post/index.html`
although its month segment is not numeric, so it selects more than the
claimed `.../<digits>/<digits>/<segment>/index.html` pattern. -/
theorem c5_counterexample :
    candidateIndexFile (str "wp/2012/march/post/index.html") = true
    ∧ specPostCandidate (str "wp/2012/march/post/index.html") = false := by
  decide

/-- C5 amended: the scanner selects exactly the `index.html` paths with at
least four `/`-separated segments whose fourth-from-last segment starts with
four decimal digits; the month and slug segments are unconstrained, and the
year segment may continue after the four digits.  Stated over an arbitrary
segment decomposition of the path. -/
theorem c5_amended (pre : List Str) (y mo seg : Str)
    (hpre : ∀ p ∈ pre, '/' ∉ p) (hy : '/' ∉ y) (hm : '/' ∉ mo) (hs : '/' ∉ seg) :
    candidateIndexFile (joinChar '/' (pre ++ [y, mo, seg, str "index.html"]))
      = startsWith4Digits y := by
  have hall : ∀ p ∈ pre ++ [y, mo, seg, str "index.html"], '/' ∉ p := by
    intro p hp
    rcases List.mem_append.mp hp with h1 | h1
    · exact hpre p h1
    · rcases List.mem_cons.mp h1 with h2 | h2
      · exact h2 ▸ hy
      rcases List.mem_cons.mp h2 with h3 | h3
      · exact h3 ▸ hm
      rcases List.mem_cons.mp h3 with h4 | h4
      · exact h4 ▸ hs
      rcases List.mem_cons.mp h4 with h5 | h5
      · subst h5
        decide
      · simp at h5
  have hsplit : splitOnChar '/' (joinChar '/' (pre ++ [y, mo, seg, str "index.html"]))
      = pre ++ [y, mo, seg, str "index.html"] :=
    splitOnChar_joinChar '/' _ (by simp) hall
  have htrail : trailsWith (str "/index.html")
      (joinChar '/' (pre ++ [y, mo, seg, str "index.html"])) = true := by
    have hj : joinChar '/' (pre ++ [y, mo, seg, str "index.html"])
        = joinChar '/' (pre ++ [y, mo, seg]) ++ str "/index.html" := by
      rw [show pre ++ [y, mo, seg, str "index.html"]
          = (pre ++ [y, mo, seg]) ++ [str "index.html"] by simp,
        joinChar_concat _ _ _ (by simp),
        show ('/' : Char) :: str "index.html" = str "/index.html" from by decide]
    rw [hj]
    exact trailsWith_append _ _
  rw [candidateIndexFile, htrail, hsplit]
  have hrev : (pre ++ [y, mo, seg, str "index.html"]).reverse
      = str "index.html" :: seg :: mo :: y :: pre.reverse := by
    simp
  have hlen : 4 ≤ (pre ++ [y, mo, seg, str "index.html"]).length := by
    simp
  simp [hrev, hlen]

/-- C5 witness: the amended theorem at a concrete path with a non-numeric
month segment; the path is selected because the year segment starts with
four digits. -/
theorem c5_amended_witness :
    candidateIndexFile (joinChar '/'
        ([str "wp"] ++ [str "2012", str "march", str "my-post", str "index.html"]))
      = startsWith4Digits (str "2012") := by
  exact c5_amended [str "wp"] _ _ _ (by decide) (by decide) (by decide) (by decide)

/-- C6 counterexample: for the class `category-subcategory-x`, the code's
`replace('category-', '')` removes every occurrence of the substring (also
the one inside `subcategory-`), yielding `Subx`, while the claimed
strip-the-prefix transform yields `Subcategory X`. -/
theorem c6_counterexample :
    (extractCatsTags [str "category-subcategory-x"]).1 = [str "Subx"]
    ∧ specCategoryName (str "category-subcategory-x") = str "Subcategory X"
    ∧ (str "Subx" : Str) ≠ str "Subcategory X" := by
  decide

/-- C6 amended: each `category-`-prefixed class (except the literal
`category-uncategorized`) yields a category name by removing every
occurrence of the substring `category-`, replacing hyphens with spaces and
Python title-casing; `tag-` classes likewise; order is preserved (the lists
are the order-preserving filter-map of the class list); the metadata fields
are omitted exactly when the lists are empty; and the claim's example
`["category-travel", "category-uncategorized", "tag-europe"]` yields
`["Travel"]` and `["Europe"]`. -/
theorem c6_amended :
    (∀ classes : List Str,
        extractCatsTags classes
          = ((classes.filter isCategoryClass).map categoryName,
             (classes.filter isTagClass).map tagName))
    ∧ (∀ (doc : NodeList) (path : Str) (t : Str) (a : List (Str × Str)) (cs : NodeList),
        findList (isNamedElem (str "article")) doc = some (Node.elem t a cs) →
          (extract_post_metadata doc path).categories
              = (if ((getClasses a).filter isCategoryClass).isEmpty then none
                 else some (((getClasses a).filter isCategoryClass).map categoryName))
            ∧ (extract_post_metadata doc path).tags
              = (if ((getClasses a).filter isTagClass).isEmpty then none
                 else some (((getClasses a).filter isTagClass).map tagName)))
    ∧ extractCatsTags [str "category-travel", str "category-uncategorized", str "tag-europe"]
        = ([str "Travel"], [str "Europe"]) := by
  refine ⟨extractCatsTags_eq, ?_, by decide⟩
  intro doc path t a cs hfind
  rw [extract_post_metadata]
  simp only [hfind, extractCatsTags_eq]
  constructor <;> rw [isEmpty_map_eq]

/-- C6 witness: the amended theorem's metadata clause applied to a concrete
article document. -/
theorem c6_amended_witness :
    (extract_post_metadata
        (ofList [Node.elem (str "article")
          [(str "class", str "category-travel tag-europe")] NodeList.nil])
        (str "wp/2012/03/my-post/index.html")).categories
      = (if ((getClasses [(str "class", str "category-travel tag-europe")]).filter
            isCategoryClass).isEmpty then none
         else some (((getClasses [(str "class", str "category-travel tag-europe")]).filter
            isCategoryClass).map categoryName)) := by
  exact (c6_amended.2.1 _ _ _ _ _ (by rfl)).1

/-- C7 counterexample: for `<title>A – Adam Wulf B</title>` the code's
`replace(' – Adam Wulf', '')` removes the mid-string occurrence, producing
`A B`, while the claimed strip-the-suffix reading leaves the text unchanged
since the site name is not a suffix there. -/
theorem c7_counterexample :
    extractTitle (ofList [Node.elem (str "title") []
        (ofList [Node.text (str "A – Adam Wulf B")])]) = str "A B"
    ∧ specTitleFallback (str "A – Adam Wulf B") = str "A – Adam Wulf B"
    ∧ (str "A B" : Str) ≠ str "A – Adam Wulf B" := by
  decide

/-- C7 amended: the title is the trimmed text of the first `h1.entry-title`;
failing that, the document `<title>` text with EVERY occurrence of the
substring `" – Adam Wulf"` removed, then trimmed; failing both, the literal
`Untitled`; and the claim's example `<title>Foo – Adam Wulf</title>` yields
`Foo`. -/
theorem c7_amended :
    (∀ (doc : NodeList) (e : Node), findList isH1EntryTitle doc = some e →
        extractTitle doc = pyStrip (getTextNode e))
    ∧ (∀ (doc : NodeList) (te : Node), findList isH1EntryTitle doc = none →
        findList (isNamedElem (str "title")) doc = some te →
        extractTitle doc = pyStrip (pyReplace (str " – Adam Wulf") [] (getTextNode te)))
    ∧ (∀ doc : NodeList, findList isH1EntryTitle doc = none →
        findList (isNamedElem (str "title")) doc = none →
        extractTitle doc = str "Untitled")
    ∧ extractTitle (ofList [Node.elem (str "title") []
        (ofList [Node.text (str "Foo – Adam Wulf")])]) = str "Foo" := by
  refine ⟨?_, ?_, ?_, by decide⟩
  · intro doc e h
    rw [extractTitle]
    simp only [h]
  · intro doc te h1 h2
    rw [extractTitle]
    simp only [h1, h2]
  · intro doc h1 h2
    rw [extractTitle]
    simp only [h1, h2]

/-- C7 witness: the amended theorem's first clause applied to a concrete
document with an `h1.entry-title` heading. -/
theorem c7_amended_witness :
    extractTitle (ofList [Node.elem (str "h1") [(str "class", str "entry-title")]
        (ofList [Node.text (str " Hello World ")])])
      = pyStrip (getTextNode (Node.elem (str "h1") [(str "class", str "entry-title")]
          (ofList [Node.text (str " Hello World ")]))) := by
  exact c7_amended.1 _ _ (by rfl)

/-- C8 counterexample: the writer is not injective in the slug, so no
reading of the front matter can recover it for every metadata: two metadata
records with different slugs (one containing a quote and newlines) produce
byte-identical output files. -/
theorem c8_counterexample :
    create_hugo_content_file
        ⟨str "T", str "D", str "s\"\ntype = \"post\"\n+++\n\nW", none, none, none⟩ (str "C")
      = create_hugo_content_file
        ⟨str "T", str "D", str "s", none, none, none⟩ (str "W\"\ntype = \"post\"\n+++\n\nC")
    ∧ (str "s\"\ntype = \"post\"\n+++\n\nW" : Str) ≠ str "s" := by
  decide

/-- C8 amended: provided the title, date and slug contain no newline,
writing and then parsing the front matter back recovers exactly the title
(through the reversible backslash escaping of its double quotes), the date
and the slug — even when date or slug contain double quotes. -/
theorem c8_amended (m : Metadata) (content : Str)
    (ht : '\n' ∉ m.title) (hd : '\n' ∉ m.date) (hs : '\n' ∉ m.slug) :
    parseFrontMatterBack (create_hugo_content_file m content)
      = some (m.title, m.date, m.slug) := by
  obtain ⟨rest, hfm, hrne⟩ : ∃ rest, frontMatterLines m
      = str "+++" :: (str "title = \"" ++ escapeQuote m.title ++ ['"'])
        :: (str "date = \"" ++ m.date ++ ['"'])
        :: (str "slug = \"" ++ m.slug ++ ['"']) :: rest ∧ rest ≠ [] := by
    refine ⟨_, rfl, ?_⟩
    cases m.categories <;> cases m.tags <;> simp [frontMatterLines]
  have h1 : '\n' ∉ str "title = \"" ++ escapeQuote m.title ++ ['"'] := by
    intro hmem
    rcases List.mem_append.mp hmem with hx | hx
    · rcases List.mem_append.mp hx with hy | hy
      · revert hy
        decide
      · exact escapeQuote_nl_free _ ht hy
    · revert hx
      decide
  have h2 : '\n' ∉ str "date = \"" ++ m.date ++ ['"'] := by
    intro hmem
    rcases List.mem_append.mp hmem with hx | hx
    · rcases List.mem_append.mp hx with hy | hy
      · revert hy
        decide
      · exact hd hy
    · revert hx
      decide
  have h3 : '\n' ∉ str "slug = \"" ++ m.slug ++ ['"'] := by
    intro hmem
    rcases List.mem_append.mp hmem with hx | hx
    · rcases List.mem_append.mp hx with hy | hy
      · revert hy
        decide
      · exact hs hy
    · revert hx
      decide
  have hsplit : splitOnChar '\n' (create_hugo_content_file m content)
      = str "+++" :: (str "title = \"" ++ escapeQuote m.title ++ ['"'])
        :: (str "date = \"" ++ m.date ++ ['"'])
        :: (str "slug = \"" ++ m.slug ++ ['"'])
        :: splitOnChar '\n' (joinChar '\n' rest ++ (str "\n\n" ++ content)) := by
    rw [create_hugo_content_file, hfm,
      joinChar_cons _ _ _ (by simp), joinChar_cons _ _ _ (by simp),
      joinChar_cons _ _ _ (by simp), joinChar_cons _ _ _ hrne,
      List.append_assoc,
      splitOnChar_part2 _ _ _ _ (by decide), splitOnChar_part2 _ _ _ _ h1,
      splitOnChar_part2 _ _ _ _ h2, splitOnChar_part2 _ _ _ _ h3]
  rw [parseFrontMatterBack]
  simp only [hsplit,
    show str "title = \"" = str "title" ++ str " = \"" from by decide,
    show str "date = \"" = str "date" ++ str " = \"" from by decide,
    show str "slug = \"" = str "slug" ++ str " = \"" from by decide,
    parseQuoted_value, unescape_escape]
  simp

/-- C8 witness: the amended round trip at a concrete metadata whose title
contains escaped double quotes. -/
theorem c8_amended_witness :
    parseFrontMatterBack (create_hugo_content_file
        ⟨str "say \"hi\"", str "2020-01-01T00:00:00+00:00", str "my-post",
          none, none, none⟩ (str "<p>Body</p>"))
      = some (str "say \"hi\"", str "2020-01-01T00:00:00+00:00", str "my-post") := by
  exact c8_amended _ _ (by decide) (by decide) (by decide)

/-- C9 counterexample: a post whose entry-content is whitespace-only but
carries an extra class (`entry-content extra`) is NOT skipped: the wrapper
regex fails, the leftover opening tag makes the content non-empty, a file is
written and the counter is incremented. -/
theorem c9_counterexample :
    process_blog_post
        (ofList [Node.elem (str "article") [] (ofList [Node.elem (str "div")
          [(str "class", str "entry-content extra")] (ofList [Node.text (str "   ")])])])
        (str "wp/2012/03/post/index.html")
      = PostResult.written [str "posts", str "2012", str "2012", str "post.html"]
          (str "+++\ntitle = \"Untitled\"\ndate = \"2012-2012-01T00:00:00+00:00\"\nslug = \"post\"\ntype = \"post\"\n+++\n\n<div class=\"entry-content extra\">")
    ∧ (runPosts [(ofList [Node.elem (str "article") [] (ofList [Node.elem (str "div")
          [(str "class", str "entry-content extra")] (ofList [Node.text (str "   ")])])],
        str "wp/2012/03/post/index.html")]).1 = 1 := by
  decide

/-- C9 amended: a post candidate with an article element and an
entry-content div whose class attribute is exactly `entry-content`
(attribute names `>`-free) and whose children are whitespace-only text is
skipped with the empty-content warning: no file is written and the driver's
counter and file list are unchanged wherever the document appears. -/
theorem c9_amended (doc : NodeList) (path : Str) (t : Str) (a : List (Str × Str)) (cs : NodeList)
    (hart : (findList (isNamedElem (str "article")) doc).isSome = true)
    (hfind : findList isEntryContentDiv doc = some (Node.elem t a cs))
    (hcls : attrGet (str "class") a = some (str "entry-content"))
    (hnames : ∀ p ∈ a, '>' ∉ p.1)
    (hws : allWsTexts cs = true) :
    process_blog_post doc path = PostResult.emptyContent
      ∧ ∀ pre post, runPosts (pre ++ (doc, path) :: post) = runPosts (pre ++ post) := by
  have hcontent : extract_post_content doc = [] := by
    rw [extract_content_of_found hfind hcls hnames, removeScripts_texts cs hws]
    exact pyStrip_spaces _ (serialize_text_spaces cs hws)
  have hmain : process_blog_post doc path = PostResult.emptyContent := by
    rcases Option.isSome_iff_exists.mp hart with ⟨art, hart2⟩
    rw [process_blog_post]
    simp only [hart2, hfind, hcontent]
    simp [pyStrip, pyRstrip, pyLstrip]
  refine ⟨hmain, ?_⟩
  intro pre post
  induction pre with
  | nil =>
    simp only [List.nil_append]
    rw [runPosts]
    cases hc : candidateIndexFile path
    · simp [hc]
    · simp [hc, hmain]
  | cons hd tl ih =>
    rcases hd with ⟨d2, p2⟩
    simp only [List.cons_append, runPosts, List.append_eq, ih]

/-- C9 witness: the amended skip at a concrete whitespace-only post. -/
theorem c9_amended_witness :
    process_blog_post
        (ofList [Node.elem (str "article") [] (ofList [Node.elem (str "div")
          [(str "class", str "entry-content")] (ofList [Node.text (str "   ")])])])
        (str "wp/2012/03/post/index.html")
      = PostResult.emptyContent := by
  exact (c9_amended _ _ _ _ _ (by rfl) (by rfl) (by rfl) (by decide) (by decide)).1

/-- C10: only the title is quote-escaped in the writer: line 1 of the front
matter carries the backslash-escaped title while lines 2 and 3 interpolate
the date and slug verbatim, category/tag names are joined quoted but
unescaped, and a date containing a double quote is reachable through the
`time.entry-date` text-content fallback. -/
theorem c10_verbatim_interpolation :
    (∀ m : Metadata,
        (frontMatterLines m)[1]? = some (str "title = \"" ++ escapeQuote m.title ++ ['"'])
        ∧ (frontMatterLines m)[2]? = some (str "date = \"" ++ m.date ++ ['"'])
        ∧ (frontMatterLines m)[3]? = some (str "slug = \"" ++ m.slug ++ ['"'])
        ∧ (∀ cs, m.categories = some cs →
            str "categories = [" ++ quoteJoin cs ++ [']'] ∈ frontMatterLines m)
        ∧ (∀ ts, m.tags = some ts →
            str "tags = [" ++ quoteJoin ts ++ [']'] ∈ frontMatterLines m)
        ∧ (∀ x : Str, quoteJoin [x] = '"' :: (x ++ ['"'])))
    ∧ extractDate (ofList [Node.elem (str "time") [(str "class", str "entry-date")]
        (ofList [Node.text (str "he said \"hi\"")])]) [] = str "he said \"hi\"" := by
  refine ⟨?_, by decide⟩
  intro m
  refine ⟨?_, ?_, ?_, ?_, ?_, fun x => rfl⟩
  · simp [frontMatterLines]
  · simp [frontMatterLines]
  · simp [frontMatterLines]
  · intro cs hcs
    simp [frontMatterLines, hcs]
  · intro ts hts
    cases hcats : m.categories <;> simp [frontMatterLines, hts, hcats]

/-- C10 witness: the category clause at a concrete metadata whose category
name contains an unescaped double quote. -/
theorem c10_verbatim_interpolation_witness :
    str "categories = [" ++ quoteJoin [str "A\"B"] ++ [']']
      ∈ frontMatterLines ⟨str "T", str "D", str "S", some [str "A\"B"], none, none⟩ := by
  exact (c10_verbatim_interpolation.1
    ⟨str "T", str "D", str "S", some [str "A\"B"], none, none⟩).2.2.2.1 _ rfl
